import Mathlib

/-!
Verification development for the OSINT lookup bot (config.py, database.py, main.py).

The program's text-processing core works on Python strings; we embed them as
`List Char` (one element per Unicode code point, matching Python's `len` /
slicing semantics).  Regex-based operations of `main.py` are embedded as
explicit left-to-right scanners with the same matching semantics as the
Python `re` calls they model (documented at each definition).  Case folding
for `re.IGNORECASE` is embedded as ASCII lowercasing, the fragment relevant
to the configured denylist entries.
-/

namespace OsintBot

/-- Python whitespace (`str.isspace`, `\s` in `re`, default `str.strip` /
`str.split`): ASCII whitespace plus the Unicode space code points. -/
def isPySpace (c : Char) : Bool :=
  c = ' ' || c = '\t' || c = '\n' || c = '\r' || c = '\x0b' || c = '\x0c' ||
  (0x1c ≤ c.val && c.val ≤ 0x1f) || c.val = 0x85 || c.val = 0xa0 ||
  c.val = 0x1680 || (0x2000 ≤ c.val && c.val ≤ 0x200a) ||
  c.val = 0x2028 || c.val = 0x2029 || c.val = 0x202f || c.val = 0x205f ||
  c.val = 0x3000

/-- ASCII lowercasing of one character (embedding of the case folding used by
`re.IGNORECASE` / `str.lower` on the ASCII range). -/
def lowerC (c : Char) : Char :=
  if 'A' ≤ c ∧ c ≤ 'Z' then Char.ofNat (c.val.toNat + 32) else c

/-- ASCII lowercasing of a string (`str.lower`). -/
def lowerStr (s : List Char) : List Char := s.map lowerC

/-- If `p` is a case-insensitive prefix of `t`, return the remainder of `t`. -/
def stripPrefCI : List Char → List Char → Option (List Char)
  | [], t => some t
  | _ :: _, [] => none
  | c :: p, d :: t => if lowerC c = lowerC d then stripPrefCI p t else none

/-- `t` contains a case-insensitive occurrence of `p` (Python
`re.search(re.escape(p), t, re.IGNORECASE)` succeeding). -/
def containsSubCI (p t : List Char) : Bool :=
  match t with
  | [] => (stripPrefCI p []).isSome
  | _ :: t' => (stripPrefCI p t).isSome || containsSubCI p t'

theorem stripPrefCI_length {p t r : List Char} :
    stripPrefCI p t = some r → p.length + r.length = t.length := by
  induction p generalizing t with
  | nil => intro h; simp [stripPrefCI] at h; simp [h]
  | cons c p ih =>
    intro h
    cases t with
    | nil => simp [stripPrefCI] at h
    | cons d t =>
      simp only [stripPrefCI] at h
      split at h
      · have := ih h; simp [List.length_cons]; omega
      · exact absurd h (by simp)

/-- One pass of `re.sub(re.escape(p), '', text, flags=re.IGNORECASE)` for a
nonempty pattern `a :: p`: scan left to right, removing each (non-overlapping)
case-insensitive occurrence and resuming after it.  The scanner drops the
matched block via the `skip` state: at a match of length `1 + p.length` it
drops the current character and sets `skip := p.length`; while `skip > 0` it
drops characters without testing for new matches. -/
def removeCIgo (a : Char) (p : List Char) : Nat → List Char → List Char
  | _, [] => []
  | skip + 1, _ :: t => removeCIgo a p skip t
  | 0, c :: t =>
    if (stripPrefCI (a :: p) (c :: t)).isSome then removeCIgo a p p.length t
    else c :: removeCIgo a p 0 t

/-- `re.sub(re.escape(item), '', text, flags=re.IGNORECASE)` (main.py line 51);
an empty pattern leaves the text unchanged, as Python's `re.sub` with an empty
pattern and empty replacement does. -/
def removeAllCI (p : List Char) (t : List Char) : List Char :=
  match p with
  | [] => t
  | a :: p' => removeCIgo a p' 0 t

/-- Helper for the `\n\s*\n` scanner: given the text after a leading `'\n'`,
look at its maximal whitespace prefix; if that prefix contains a `'\n'`,
return the text after the *last* such `'\n'` (the end of the greedy
`\n\s*\n` match), else `none` (no match at this position). -/
def wsPrefixLastNl : List Char → Option (List Char)
  | [] => none
  | c :: rest =>
    if isPySpace c then
      match wsPrefixLastNl rest with
      | some r => some r
      | none => if c = '\n' then some rest else none
    else none

theorem wsPrefixLastNl_length : ∀ (l : List Char) {r : List Char},
    wsPrefixLastNl l = some r → r.length < l.length := by
  intro l
  induction l with
  | nil => intro r h; simp [wsPrefixLastNl] at h
  | cons c rest ih =>
    intro r h
    simp only [wsPrefixLastNl] at h
    split at h
    · split at h
      next r' hw =>
        cases h
        have := ih hw
        simp only [List.length_cons]; omega
      next hw =>
        split at h
        · cases h; simp only [List.length_cons]; omega
        · cases h
    · cases h

/-- `re.sub(r'\n\s*\n', '\n\n', text)` (main.py line 52) as a left-to-right
scan: at each `'\n'`, the greedy `\s*` extends through the maximal run of
whitespace ending at the last `'\n'` of that run; the whole match is replaced
by two newlines and scanning resumes after the match.  As in `removeCIgo`,
the rest of the matched block (everything after its leading `'\n'`) is
dropped via the `skip` state. -/
def collapseBlankGo : Nat → List Char → List Char
  | _, [] => []
  | skip + 1, _ :: t => collapseBlankGo skip t
  | 0, c :: t =>
    if c = '\n' then
      match wsPrefixLastNl t with
      | some r => '\n' :: '\n' :: collapseBlankGo (t.length - r.length) t
      | none => c :: collapseBlankGo 0 t
    else c :: collapseBlankGo 0 t

def collapseBlank (t : List Char) : List Char := collapseBlankGo 0 t

/-- `re.sub(r' +', ' ', text)` (main.py line 53): collapse each maximal run
of space characters to a single space, here scanned with one character of
lookahead (a space directly followed by another space is dropped, so each
run keeps exactly one space). -/
def collapseSpaces : List Char → List Char
  | [] => []
  | [c] => [c]
  | c :: d :: t =>
    if c = ' ' && d = ' ' then collapseSpaces (d :: t)
    else c :: collapseSpaces (d :: t)

/-- Python `str.strip()`: drop leading and trailing whitespace. -/
def pyStrip (t : List Char) : List Char :=
  (((t.dropWhile isPySpace).reverse.dropWhile isPySpace)).reverse

/-- config.py `GLOBAL_BLACKLIST` (including its literal duplicate entry). -/
def GLOBAL_BLACKLIST : List (List Char) :=
  ["@patelkrish_99".data,
   "patelkrish_99".data,
   "t.me/anshapi".data,
   "anshapi".data,
   "@Kon_Hu_Mai".data,
   "Kon_Hu_Mai".data,
   "Dm to buy access".data,
   "Dm to buy access".data,
   "credit".data,
   "validity".data,
   "expires_on".data]

/-- main.py `clean_branding(text, extra_blacklist)`: on a nonempty text,
remove each denylist entry (global list then the extra list, in order) with a
case-insensitive single-pass substitution, then collapse blank-line runs,
collapse space runs, and strip; an empty (falsy) text is returned unchanged. -/
def clean_branding (text : List Char) (extra_blacklist : List (List Char)) :
    List Char :=
  if text = [] then text
  else
    let blacklist := GLOBAL_BLACKLIST ++ extra_blacklist
    let t1 := blacklist.foldl (fun s p => removeAllCI p s) text
    pyStrip (collapseSpaces (collapseBlank t1))

/-! ## JSON values and Python `json.dumps` -/

/-- JSON values as produced by `resp.json()` (numbers restricted to the
integers, the only numerals the claims exercise). -/
inductive Json where
  | null
  | bool (b : Bool)
  | num (n : Int)
  | str (s : List Char)
  | arr (elems : List Json)
  | obj (entries : List (List Char × Json))

/-- Decimal digits, on fuel (always called with enough fuel: each digit
consumes one unit and `n < 10 ^ n + 1`). -/
def natCharsF : Nat → Nat → List Char
  | 0, _ => []
  | f + 1, n =>
    if n < 10 then [Char.ofNat (48 + n)]
    else natCharsF f (n / 10) ++ [Char.ofNat (48 + n % 10)]

/-- Decimal digits of a natural number (`str(n)`). -/
def natChars (n : Nat) : List Char := natCharsF (n + 1) n

/-- Decimal rendering of an integer. -/
def intChars (n : Int) : List Char :=
  if n < 0 then '-' :: natChars (-n).toNat else natChars n.toNat

/-- Lowercase hexadecimal digit. -/
def hexC (n : Nat) : Char :=
  if n < 10 then Char.ofNat (48 + n) else Char.ofNat (87 + n)

/-- A `\uXXXX` escape. -/
def uEsc (n : Nat) : List Char :=
  ['\\', 'u', hexC (n / 4096 % 16), hexC (n / 256 % 16), hexC (n / 16 % 16),
   hexC (n % 16)]

/-- Escaping of one character by Python's JSON encoder.  `ea` is
`ensure_ascii`: when true, non-ASCII characters become `\uXXXX` escapes
(surrogate pairs beyond the BMP); when false they are kept literally. -/
def escJsonChar (ea : Bool) (c : Char) : List Char :=
  if c = '"' then ['\\', '"']
  else if c = '\\' then ['\\', '\\']
  else if c = '\n' then ['\\', 'n']
  else if c = '\r' then ['\\', 'r']
  else if c = '\t' then ['\\', 't']
  else if c.val = 8 then ['\\', 'b']
  else if c.val = 12 then ['\\', 'f']
  else if c.val < 32 then uEsc c.val.toNat
  else if ea && 126 < c.val then
    if c.val ≤ 0xffff then uEsc c.val.toNat
    else
      uEsc (0xd800 + (c.val.toNat - 0x10000) / 1024) ++
        uEsc (0xdc00 + (c.val.toNat - 0x10000) % 1024)
  else [c]

/-- JSON string-body escaping. -/
def escStr (ea : Bool) (s : List Char) : List Char :=
  s.foldr (fun c acc => escJsonChar ea c ++ acc) []

/-- Indentation prefix at nesting level `lvl` for `json.dumps(..., indent=2)`. -/
def indChars (lvl : Nat) : List Char := List.replicate (2 * lvl) ' '

mutual

/-- `json.dumps(v, indent=2, ensure_ascii=ea)` at nesting level `lvl` (with
`indent` set, the item separator is `","` and the key separator `": "`, each
element on its own indented line; empty containers stay on one line). -/
def dumpsVal (ea : Bool) (lvl : Nat) : Json → List Char
  | .null => "null".data
  | .bool true => "true".data
  | .bool false => "false".data
  | .num n => intChars n
  | .str s => '"' :: (escStr ea s ++ ['"'])
  | .arr [] => ['[', ']']
  | .arr (x :: xs) =>
      '[' :: '\n' ::
        (indChars (lvl + 1) ++ dumpsItems ea (lvl + 1) (x :: xs) ++
          '\n' :: (indChars lvl ++ [']']))
  | .obj [] => ['\x7b', '\x7d']
  | .obj (p :: ps) =>
      '\x7b' :: '\n' ::
        (indChars (lvl + 1) ++ dumpsPairs ea (lvl + 1) (p :: ps) ++
          '\n' :: (indChars lvl ++ ['\x7d']))
termination_by structural j => j

/-- Array elements, joined by `",\n" ++ indent`. -/
def dumpsItems (ea : Bool) (lvl : Nat) : List Json → List Char
  | [] => []
  | [x] => dumpsVal ea lvl x
  | x :: y :: ys =>
      dumpsVal ea lvl x ++
        ',' :: '\n' :: (indChars lvl ++ dumpsItems ea lvl (y :: ys))
termination_by structural l => l

/-- Object entries `"key": value`, joined by `",\n" ++ indent`. -/
def dumpsPairs (ea : Bool) (lvl : Nat) : List (List Char × Json) → List Char
  | [] => []
  | [(k, v)] => ('"' :: (escStr ea k ++ ['"'])) ++ ':' :: ' ' :: dumpsVal ea lvl v
  | (k, v) :: q :: qs =>
      (('"' :: (escStr ea k ++ ['"'])) ++ ':' :: ' ' :: dumpsVal ea lvl v) ++
        ',' :: '\n' :: (indChars lvl ++ dumpsPairs ea lvl (q :: qs))
termination_by structural l => l

end

/-! ## Upstream invoker (`call_api`, main.py lines 56-70) -/

/-- Outcome of the single HTTP GET inside `call_api`: a response with a
status and (for its body) the result of JSON parsing, a timeout, or any
other transport exception carrying its message. -/
inductive HttpOutcome where
  | response (status : Nat) (body : Option Json)
  | timeout
  | exc (msg : List Char)

/-- The `{"error": m}` payloads `call_api` builds. -/
def errPayload (m : List Char) : Json := Json.obj [("error".data, Json.str m)]

/-- main.py `call_api`: parsed body on HTTP 200; `{"error": "Invalid JSON
response"}` when the 200 body fails to parse; `{"error": "HTTP <status>"}`
on any other status; `{"error": "Request timeout"}` on timeout; `{"error":
str(e)}` on any other exception. -/
def call_api : HttpOutcome → Json
  | .response s b =>
      if s = 200 then
        match b with
        | some j => j
        | none => errPayload "Invalid JSON response".data
      else errPayload ("HTTP ".data ++ natChars s)
  | .timeout => errPayload "Request timeout".data
  | .exc m => errPayload m

/-! ## Branding envelope (main.py lines 218-233, config.py `BRANDING`) -/

def BRANDING_developer : List Char := "@Nullprotocol_X".data

def BRANDING_powered_by : List Char := "NULL PROTOCOL".data

/-- `l.any (key present)`: the Python `dict` already holds key `k`. -/
def hasKey (l : List (List Char × Json)) (k : List Char) : Bool :=
  l.any (fun p => p.1 = k)

/-- Python `d[k] = v` on a dict rendered as an entry list: overwrite in
place when the key exists, else append. -/
def setKey (l : List (List Char × Json)) (k : List Char) (v : Json) :
    List (List Char × Json) :=
  if hasKey l k then l.map (fun p => if p.1 = k then (k, v) else p)
  else l ++ [(k, v)]

/-- main.py lines 219-233: a dict gets the two branding fields assigned in
place; a list or any scalar is wrapped as `{"result": value}` plus the two
branding fields. -/
def addBranding : Json → Json
  | .obj l =>
      .obj (setKey (setKey l "developer".data (.str BRANDING_developer))
        "powered_by".data (.str BRANDING_powered_by))
  | .arr xs =>
      .obj [("result".data, .arr xs),
            ("developer".data, .str BRANDING_developer),
            ("powered_by".data, .str BRANDING_powered_by)]
  | v =>
      .obj [("result".data, v),
            ("developer".data, .str BRANDING_developer),
            ("powered_by".data, .str BRANDING_powered_by)]

/-! ## Command catalog (config.py `COMMANDS`, `LOG_CHANNELS`) -/

/-- One catalog entry.  Every `url` template in config.py ends in its single
`"{}"` placeholder, so `url.format(query)` is `urlPre ++ query`; `desc` is
display-only and omitted. -/
structure CmdInfo where
  urlPre : List Char
  param : List Char
  log : Int
  extra_blacklist : List (List Char)

/-- config.py `COMMANDS`, in source order. -/
def COMMANDS : List (List Char × CmdInfo) :=
  [("num".data,
    ⟨"https://num-free-rootx-jai-shree-ram-14-day.vercel.app/?key=lundkinger&number=".data,
     "10-digit number".data, -1003482423742,
     ["dm to buy".data, "owner".data, "@kon_hu_mai".data,
      "Ruk ja bhencho itne m kya unlimited request lega?? Paid lena h to bolo 100-400₹ @Simpleguy444".data]⟩),
   ("tg2num".data,
    ⟨"https://tg2num-owner-api.vercel.app/?userid=".data,
     "user id".data, -1003642820243,
     ["code".data, "validity".data, "hours_remaining".data,
      "days_remaining".data, "expires_on".data,
      "https://t.me/AbdulBotzOfficial".data, "AbdulDevStoreBot".data,
      "@AbdulDevStoreBot".data, "credit".data]⟩),
   ("vehicle".data,
    ⟨"https://vehicle-info-aco-api.vercel.app/info?vehicle=".data,
     "RC number".data, -1003237155636, []⟩),
   ("vchalan".data,
    ⟨"https://api.b77bf911.workers.dev/vehicle?registration=".data,
     "RC number".data, -1003237155636, []⟩),
   ("ip".data,
    ⟨"https://abbas-apis.vercel.app/api/ip?ip=".data,
     "IP address".data, -1003665811220, []⟩),
   ("email".data,
    ⟨"https://abbas-apis.vercel.app/api/email?mail=".data,
     "email".data, -1003431549612, []⟩),
   ("ffinfo".data,
    ⟨"https://official-free-fire-info.onrender.com/player-info?key=DV_M7-INFO_API&uid=".data,
     "uid".data, -1003588577282, []⟩),
   ("ffban".data,
    ⟨"https://abbas-apis.vercel.app/api/ff-ban?uid=".data,
     "uid".data, -1003521974255, []⟩),
   ("pincode".data,
    ⟨"https://api.postalpincode.in/pincode/".data,
     "6-digit pincode".data, -1003677285823, []⟩),
   ("ifsc".data,
    ⟨"https://abbas-apis.vercel.app/api/ifsc?ifsc=".data,
     "IFSC code".data, -1003624886596, []⟩),
   ("gst".data,
    ⟨"https://api.b77bf911.workers.dev/gst?number=".data,
     "GST number".data, -1003634866992, []⟩),
   ("insta".data,
    ⟨"https://mkhossain.alwaysdata.net/instanum.php?username=".data,
     "username".data, -1003498414978, []⟩),
   ("tginfo".data,
    ⟨"https://openosintx.vippanel.in/tgusrinfo.php?key=OpenOSINTX-FREE&user=".data,
     "username/userid".data, -1003643170105, []⟩),
   ("tginfopro".data,
    ⟨"https://api.b77bf911.workers.dev/telegram?user=".data,
     "username/userid".data, -1003643170105, []⟩),
   ("git".data,
    ⟨"https://api.github.com/users/".data,
     "username".data, -1003576017442, []⟩),
   ("pak".data,
    ⟨"https://abbas-apis.vercel.app/api/pakistan?number=".data,
     "number".data, -1003663672738, []⟩)]

/-- `COMMANDS.get(cmd)`. -/
def commandsGet (c : List Char) : Option CmdInfo :=
  (COMMANDS.find? (fun p => p.1 = c)).map (fun p => p.2)

/-! ## Fixed texts (main.py lines 148-149, 162, 167, 212, 241-242, 251, 311,
343; config.py `BRANDING`, `REDIRECT_BOT`, `CACHE_EXPIRY`) -/

def EXTRA_FOOTER_MD : List Char :=
  "\n\n━━━━━━━━━━━━━━━━━━━━\n👨‍💻 **Developer:** @Nullprotocol_X\n⚡ **Powered by:** NULL PROTOCOL".data

def PLAIN_FOOTER : List Char :=
  "\n\n━━━━━━━━━━━━━━━━━━━━\n👨‍💻 Developer: @Nullprotocol_X\n⚡ Powered by: NULL PROTOCOL".data

def FILE_CAPTION : List Char :=
  "📁 Output too long, sent as file.\n👨‍💻 Developer: @Nullprotocol_X".data

def NOT_FOUND_MSG : List Char := "❌ Command not found.".data

def BAN_MSG : List Char := "❌ **Aap banned hain. Contact admin.**".data

def JOIN_MSG : List Char :=
  "⚠️ **Bot use karne ke liye ye channels join karo:**".data

def REDIRECT_MSG : List Char :=
  "⚠️ **Ye bot sirf group me kaam karta hai.**\nPersonal use ke liye use kare: @osintfatherNullBot".data

def EXPIRED_MSG : List Char :=
  "❌ **Copy data expired. Please run the command again.**".data

def OWNER_ID : Nat := 8104850843

def CACHE_EXPIRY : Nat := 300

/-- `html.escape(s)` (quote=True) on one character. -/
def escHtmlChar (c : Char) : List Char :=
  if c = '&' then "&amp;".data
  else if c = '<' then "&lt;".data
  else if c = '>' then "&gt;".data
  else if c = '"' then "&quot;".data
  else if c = '\'' then "&#x27;".data
  else [c]

/-- `html.escape(s)` (main.py line 238). -/
def htmlEscape (s : List Char) : List Char :=
  s.foldr (fun c acc => escHtmlChar c ++ acc) []

/-! ## Bot state and observable effects

The mutable state the claims speak about: the user table (row keys plus the
per-user lookup counter column), the append-only lookups audit table, the
tracked groups, and the in-process copy cache.  `uuid.uuid4()` tokens are
modelled by a fresh-counter `nextTok` (each stored token is new, the
property `uuid4` provides). -/

structure St where
  users : List Nat
  counters : List (Nat × Nat)
  lookups : List (Nat × List Char × List Char × Json)
  groups : List Int
  cache : List (Nat × Json × Nat)
  nextTok : Nat

/-- Outbound actions a handler performs, in order. -/
inductive Eff where
  | reply (text : List Char)
  | replyJoin (text : List Char) (missingNames : List (List Char))
  | replyHTML (text : List Char) (copyTok : Nat) (searchCmd : List Char)
  | sendDocument (name content caption : List Char)
  | apiGet (url : List Char)
  | channelLog (chat : Int) (text : List Char)
  | logSendFailed

/-- database.py `update_user`: upsert of the user row; a fresh row gets
lookup counter 0 (column default), an existing row only refreshes the
name/last-seen fields, which the claims do not observe. -/
def update_user (st : St) (uid : Nat) : St :=
  if uid ∈ st.users then st
  else { st with users := uid :: st.users, counters := (uid, 0) :: st.counters }

/-- database.py `save_lookup` second statement: `UPDATE users SET lookups =
lookups + 1 WHERE user_id = ?` (no-op when the row is absent). -/
def bumpCounter : List (Nat × Nat) → Nat → List (Nat × Nat)
  | [], _ => []
  | (u, n) :: rest, uid =>
      if u = uid then (u, n + 1) :: rest else (u, n) :: bumpCounter rest uid

/-- database.py `save_lookup`: append the audit row and increment the
actor's counter. -/
def save_lookup (st : St) (uid : Nat) (cmd query : List Char) (data : Json) :
    St :=
  { st with lookups := st.lookups ++ [(uid, cmd, query, data)],
            counters := bumpCounter st.counters uid }

/-- main.py `store_copy_data`: generate a fresh token, store the payload
with the current time, return the token. -/
def store_copy_data (st : St) (data : Json) (now : Nat) : Nat × St :=
  (st.nextTok,
   { st with cache := (st.nextTok, data, now) :: st.cache,
             nextTok := st.nextTok + 1 })

/-- `copy_cache.get(uid)`. -/
def lookupTok (cache : List (Nat × Json × Nat)) (tok : Nat) :
    Option (Json × Nat) :=
  (cache.find? (fun e => e.1 = tok)).map (fun e => e.2)

/-- `del copy_cache[uid]` / `copy_cache.pop(uid, None)`. -/
def eraseTok (cache : List (Nat × Json × Nat)) (tok : Nat) :
    List (Nat × Json × Nat) :=
  cache.filter (fun e => !(e.1 = tok))

/-- main.py lines 332-343 (the `copy:` branch of `callback_handler`): if the
token is present and younger than `CACHE_EXPIRY`, reply with the payload and
delete the entry; otherwise drop any stale entry and report expiry.  Returns
the consumed payload (`none` = the "expired" reply) and the new cache. -/
def consumeCopy (cache : List (Nat × Json × Nat)) (tok : Nat) (now : Nat) :
    Option Json × List (Nat × Json × Nat) :=
  match lookupTok cache tok with
  | some (d, t) =>
      if now - t < CACHE_EXPIRY then (some d, eraseTok cache tok)
      else (none, eraseTok cache tok)
  | none => (none, cache)

/-- The copy-control reply text (main.py line 337; note `ensure_ascii`
defaults to true there, unlike the inline rendering). -/
def copyReply (d : Json) : List Char :=
  "```json\n".data ++ dumpsVal true 0 d ++ "\n```".data

/-! ## Lookup pipeline (`handle_command`, main.py lines 209-275) -/

/-- main.py line 242: the serialized envelope plus the fixed plain footer. -/
def output_text (data : Json) : List Char := dumpsVal false 0 data ++ PLAIN_FOOTER

/-- main.py line 255: the inline message body. -/
def inlineHTML (cleanedEscaped : List Char) : List Char :=
  "<pre>".data ++ cleanedEscaped ++ "</pre>".data ++ EXTRA_FOOTER_MD

/-- main.py lines 236-258: sanitize and escape the serialized envelope, then
deliver as a document when `len(output_text) > 4000`, else inline with the
copy button (which stores the raw envelope in the copy cache). -/
def renderDeliver (cmd query : List Char) (extra : List (List Char))
    (data : Json) (st : St) (now : Nat) : St × List Eff :=
  let json_str := dumpsVal false 0 data
  let cleaned := clean_branding json_str extra
  let cleaned_escaped := htmlEscape cleaned
  if 4000 < (output_text data).length then
    (st, [.sendDocument (cmd ++ '_' :: (query.take 20 ++ ".txt".data))
            (output_text data) FILE_CAPTION])
  else
    let tok := (store_copy_data st data now).1
    ((store_copy_data st data now).2,
     [.replyHTML (inlineHTML cleaned_escaped) tok cmd])

/-- main.py line 269: the audit-channel summary. -/
def log_text (uid : Nat) (unameDisp : List Char) (cmd query : List Char)
    (data : Json) : List Char :=
  "👤 **User:** ".data ++ natChars uid ++ " (".data ++ unameDisp ++
    ")\n🔍 **Command:** /".data ++ cmd ++ "\n📝 **Query:** `".data ++ query ++
    "`\n\n```json\n".data ++ dumpsVal false 0 data ++ "\n```".data

/-- main.py lines 270-271: cap the summary at 4000 and append an ellipsis. -/
def truncLog (s : List Char) : List Char :=
  if 4000 < s.length then s.take 4000 ++ "...".data else s

/-- main.py `handle_command`: catalog lookup, upstream call, branding,
delivery, audit row + counter, audit-channel mirror.  `oracle` is the
outcome of the HTTP GET; `logOk` tells whether the channel send succeeds
(on failure the exception is logged and swallowed, main.py lines 272-275). -/
def handle_command (st : St) (uid : Nat) (unameDisp : List Char)
    (cmd query : List Char) (oracle : HttpOutcome) (now : Nat)
    (logOk : Bool) : St × List Eff :=
  match commandsGet cmd with
  | none => (st, [.reply NOT_FOUND_MSG])
  | some info =>
      let url := info.urlPre ++ query
      let data := addBranding (call_api oracle)
      let d := renderDeliver cmd query info.extra_blacklist data st now
      let st2 := save_lookup d.1 uid cmd query data
      let lt := truncLog (log_text uid unameDisp cmd query data)
      (st2, .apiGet url :: d.2 ++
        [if logOk then .channelLog info.log lt else .logSendFailed])

/-! ## Access gate (main.py lines 72-88, 139-172) and entry point -/

structure Channel where
  name : List Char
  link : List Char
  id : Int

/-- config.py `FORCE_JOIN_CHANNELS`. -/
def FORCE_JOIN_CHANNELS : List Channel :=
  [⟨"All Data Here".data, "https://t.me/all_data_here".data, -1003090922367⟩,
   ⟨"OSINT Lookup".data, "https://t.me/osint_lookup".data, -1003698567122⟩]

/-- The environment the gate consults: the admin table, the ban table, and
the membership oracle — `joinedOk uid ch` is true when `get_chat_member`
succeeds with a status other than left/kicked (main.py lines 74-80). -/
structure Env where
  admins : List Nat
  banned : List Nat
  joinedOk : Nat → Int → Bool

/-- main.py `check_force_join`: a channel is missing when the member status
is left/kicked or the query raises. -/
def check_force_join (env : Env) (uid : Nat) : Bool × List Channel :=
  let missing := FORCE_JOIN_CHANNELS.filter (fun ch => !(env.joinedOk uid ch.id))
  (missing.isEmpty, missing)

inductive ChatType where
  | privateChat
  | group
  | supergroup
  | channel
deriving DecidableEq

/-- Python `str.startswith`. -/
def startsWithStr : List Char → List Char → Bool
  | [], _ => true
  | _ :: _, [] => false
  | c :: p, d :: t => c = d && startsWithStr p t

/-- main.py `group_only` as a decision (its deny reply is emitted by the
caller model): in a private chat only `/start`, `/help`, `/admin` prefixes,
the owner, or an admin pass. -/
def group_only (env : Env) (uid : Nat) (ct : ChatType) (text : List Char) :
    Bool :=
  match ct with
  | .privateChat =>
      let t := pyStrip text
      startsWithStr "/start".data t || startsWithStr "/help".data t ||
        startsWithStr "/admin".data t || uid = OWNER_ID ||
        env.admins.contains uid
  | _ => true

/-- main.py `force_join_filter`: owner/admin pass unconditionally; then the
ban check with its fixed denial; then the membership check with the join
prompt listing one control per missing channel. -/
def force_join_filter (env : Env) (uid : Nat) : Bool × List Eff :=
  if uid = OWNER_ID || env.admins.contains uid then (true, [])
  else if env.banned.contains uid then (false, [.reply BAN_MSG])
  else
    let r := check_force_join env uid
    if r.1 then (true, [])
    else (false, [.replyJoin JOIN_MSG (r.2.map (fun ch => ch.name))])

/-- Python `text.split(maxsplit=1)` restricted to the first token and the
remainder (the only parts main.py reads): leading whitespace skipped, the
first whitespace run after the token consumed, `none` when nothing
follows. -/
def splitMax1 (t : List Char) : List Char × Option (List Char) :=
  let t1 := t.dropWhile isPySpace
  let tok := t1.takeWhile (fun c => !(isPySpace c))
  let rest := (t1.drop tok.length).dropWhile isPySpace
  (tok, if rest = [] then none else some rest)

/-- main.py line 306: `parts[0][1:].split('@')[0].lower()`. -/
def parseCmd (tok : List Char) : List Char :=
  lowerStr ((tok.drop 1).takeWhile (fun c => !(c = '@')))

/-- main.py line 311: the usage hint, with the catalog's `param` or the
`"query"` default for an unknown command. -/
def usageMsg (cmd : List Char) : List Char :=
  let param := match commandsGet cmd with
    | some i => i.param
    | none => "query".data
  "Usage: `/".data ++ cmd ++ " <".data ++ param ++ ">`".data

/-- main.py `message_handler`: gate (scope, ban, membership), user upsert,
group tracking, slash parsing, usage hint on a missing argument, else the
lookup pipeline. -/
def message_handler (env : Env) (st : St) (ct : ChatType) (chatId : Int)
    (uid : Nat) (unameDisp : List Char) (text : List Char)
    (oracle : HttpOutcome) (now : Nat) (logOk : Bool) : St × List Eff :=
  if !(group_only env uid ct text) then (st, [.reply REDIRECT_MSG])
  else
    let fj := force_join_filter env uid
    if !fj.1 then (st, fj.2)
    else
      let st1 := update_user st uid
      let st2 :=
        if ct = ChatType.group || ct = ChatType.supergroup then
          { st1 with groups :=
              if chatId ∈ st1.groups then st1.groups else chatId :: st1.groups }
        else st1
      if text = [] || !(startsWithStr "/".data text) then (st2, [])
      else
        let p := splitMax1 text
        let cmd := parseCmd p.1
        match p.2 with
        | none => (st2, [.reply (usageMsg cmd)])
        | some query => handle_command st2 uid unameDisp cmd query oracle now logOk

/-! ## Predicates and concrete inputs used by the verification -/

/-- `p` occurs (case-sensitively) as a contiguous substring of `l`. -/
def InfixOf (p l : List Char) : Prop := ∃ a b, l = a ++ (p ++ b)

/-- `y` contains a blank-line pattern the `\n\s*\n` pass would still rewrite:
two newlines enclosing a nonempty run of whitespace. -/
def Blanky (y : List Char) : Prop :=
  ∃ m, m ≠ [] ∧ (∀ c ∈ m, isPySpace c = true) ∧
    InfixOf ('\n' :: (m ++ ['\n'])) y

/-- `y` contains two adjacent spaces. -/
def HasDS (y : List Char) : Prop := InfixOf [' ', ' '] y

/-- All stored tokens are below the freshness counter. -/
def cacheInv (st : St) : Prop := ∀ e ∈ st.cache, e.1 < st.nextTok

/-- The delivery went out as a document attachment. -/
def sentAsFile (effs : List Eff) : Bool :=
  effs.any (fun e => match e with | .sendDocument _ _ _ => true | _ => false)

/-- The effects a failure of the audit-channel send may not change:
everything except the channel mirror and its failure log. -/
def nonLogEffs (effs : List Eff) : List Eff :=
  effs.filter (fun e =>
    match e with
    | .channelLog _ _ => false
    | .logSendFailed => false
    | _ => true)

/-- The empty initial state. -/
def st0 : St := ⟨[], [], [], [], [], 0⟩

/-- An environment with user 42 banned, everyone a member of all required
channels, and no admins. -/
def envBan42 : Env := ⟨[], [42], fun _ _ => true⟩

/-- An open environment: nobody banned, everyone a member, no admins. -/
def envOpen : Env := ⟨[], [], fun _ _ => true⟩

/-- The long denylist entry of the `num` command (config.py line 73). -/
def rukEntry : List Char :=
  "Ruk ja bhencho itne m kya unlimited request lega?? Paid lena h to bolo 100-400₹ @Simpleguy444".data

/-- The extra denylist of the `num` command. -/
def extraNum : List (List Char) :=
  match commandsGet "num".data with
  | some i => i.extra_blacklist
  | none => []

/-- An upstream object response carrying the `num` denylist entry. -/
def dataRuk : Json := addBranding (Json.obj [("a".data, Json.str rukEntry)])

/-- An upstream object response carrying the ASCII denylist entry
`anshapi`. -/
def dataAnshapi : Json :=
  addBranding (Json.obj [("x".data, Json.str "see anshapi here".data)])

/-- An envelope whose rendered output (with the footer) is exactly 4000
characters long. -/
def dataLen4000 : Json := addBranding (Json.str (List.replicate 3834 'a'))

/-- An envelope whose rendered output is exactly 4001 characters long. -/
def dataLen4001 : Json := addBranding (Json.str (List.replicate 3835 'a'))

/-- An HTTP outcome (status 200, well-formed string body) whose branded
envelope is `dataLen4000`. -/
def oracleLen4000 : HttpOutcome :=
  HttpOutcome.response 200 (some (Json.str (List.replicate 3834 'a')))

/-- An envelope whose audit summary exceeds the truncation threshold. -/
def dataBigLog : Json := addBranding (Json.str (List.replicate 4200 'a'))

/-! ## C3: the upstream invoker never raises past its boundary -/

/-- C3: for every URL and every outcome of the bounded HTTP GET, `call_api`
returns exactly one of: the parsed JSON body on HTTP 200 with a well-formed
body; `{"error": "HTTP <status>"}` on any non-200 status; `{"error":
"Invalid JSON response"}` if the 200 body fails to parse; `{"error":
"Request timeout"}` on timeout; `{"error": "<message>"}` on any other
transport exception — all failure modes are data, never exceptions. -/
theorem call_api_never_raises (o : HttpOutcome) :
    (∃ j, o = .response 200 (some j) ∧ call_api o = j) ∨
    (o = .response 200 none ∧
      call_api o = errPayload "Invalid JSON response".data) ∨
    (∃ s b, o = .response s b ∧ s ≠ 200 ∧
      call_api o = errPayload ("HTTP ".data ++ natChars s)) ∨
    (o = .timeout ∧ call_api o = errPayload "Request timeout".data) ∨
    (∃ m, o = .exc m ∧ call_api o = errPayload m) := by
  cases o with
  | response s b =>
    by_cases h : s = 200
    · subst h
      cases b with
      | some j => exact Or.inl ⟨j, rfl, by simp [call_api]⟩
      | none => exact Or.inr (Or.inl ⟨rfl, by simp [call_api]⟩)
    · exact Or.inr (Or.inr (Or.inl ⟨s, b, rfl, h, by simp [call_api, h]⟩))
  | timeout => exact Or.inr (Or.inr (Or.inr (Or.inl ⟨rfl, rfl⟩)))
  | exc m => exact Or.inr (Or.inr (Or.inr (Or.inr ⟨m, rfl, rfl⟩)))

/-! ## C6: envelope normalization -/

/-- C6: an upstream JSON object keeps all its entries and gains exactly the
two branding fields (when they do not collide with existing keys); an array
or scalar is wrapped as `{"result": value, "developer": D, "powered_by":
P}`. -/
theorem envelope_normalization (l : List (List Char × Json)) (xs : List Json)
    (n : Int) :
    (hasKey l "developer".data = false → hasKey l "powered_by".data = false →
      addBranding (Json.obj l) =
        Json.obj (l ++ [("developer".data, Json.str BRANDING_developer),
                        ("powered_by".data, Json.str BRANDING_powered_by)])) ∧
    addBranding (Json.arr xs) =
      Json.obj [("result".data, Json.arr xs),
                ("developer".data, Json.str BRANDING_developer),
                ("powered_by".data, Json.str BRANDING_powered_by)] ∧
    addBranding (Json.num n) =
      Json.obj [("result".data, Json.num n),
                ("developer".data, Json.str BRANDING_developer),
                ("powered_by".data, Json.str BRANDING_powered_by)] := by
  refine ⟨?_, rfl, rfl⟩
  intro h1 h2
  have hdev : setKey l "developer".data (.str BRANDING_developer) =
      l ++ [("developer".data, .str BRANDING_developer)] := by
    rw [setKey, if_neg]
    rw [h1]
    simp
  have hpb : hasKey (l ++ [("developer".data, Json.str BRANDING_developer)])
      "powered_by".data = false := by
    rw [hasKey, List.any_append]
    rw [hasKey] at h2
    rw [h2]
    decide
  simp only [addBranding, hdev]
  rw [setKey, if_neg]
  · simp
  · rw [hpb]
    exact Bool.false_ne_true

/-- C6 witness: the object `{"a": 1}` becomes
`{"a": 1, "developer": D, "powered_by": P}`. -/
theorem envelope_normalization_witness :
    addBranding (Json.obj [("a".data, Json.num 1)]) =
      Json.obj [("a".data, Json.num 1),
                ("developer".data, Json.str BRANDING_developer),
                ("powered_by".data, Json.str BRANDING_powered_by)] :=
  (envelope_normalization [("a".data, Json.num 1)] [] 0).1 (by decide)
    (by decide)

/-! ## C4: copy-cache lifecycle -/

/-- C4: `store` hands out a fresh token; a `consume` of that token within
the 300-unit TTL returns the stored payload and removes the entry, so a
second `consume` of the same token reports expiry; a `consume` at or after
the TTL reports expiry even on first use and removes the stale entry. -/
theorem copy_cache_lifecycle (st : St) (p : Json) (n₁ n₂ : Nat)
    (hinv : cacheInv st) :
    lookupTok st.cache (store_copy_data st p n₁).1 = none ∧
    (n₂ - n₁ < CACHE_EXPIRY →
      consumeCopy ((store_copy_data st p n₁).2).cache
          (store_copy_data st p n₁).1 n₂ = (some p, st.cache) ∧
      ∀ n₃, consumeCopy st.cache (store_copy_data st p n₁).1 n₃ =
          (none, st.cache)) ∧
    (CACHE_EXPIRY ≤ n₂ - n₁ →
      consumeCopy ((store_copy_data st p n₁).2).cache
          (store_copy_data st p n₁).1 n₂ = (none, st.cache)) := by
  have hfresh : st.cache.find? (fun e => e.1 = st.nextTok) = none := by
    rw [List.find?_eq_none]
    intro x hx
    have := hinv x hx
    simp only [decide_eq_true_eq]
    omega
  have herase : eraseTok st.cache st.nextTok = st.cache := by
    rw [eraseTok, List.filter_eq_self]
    intro x hx
    have := hinv x hx
    simp only [Bool.not_eq_true', decide_eq_false_iff_not]
    omega
  have hhead :
      lookupTok ((st.nextTok, p, n₁) :: st.cache) st.nextTok = some (p, n₁) := by
    simp [lookupTok, List.find?]
  have herase2 :
      eraseTok ((st.nextTok, p, n₁) :: st.cache) st.nextTok = st.cache := by
    simp only [eraseTok] at herase ⊢
    simp [List.filter_cons, herase]
  refine ⟨by simp [store_copy_data, lookupTok, hfresh], ?_, ?_⟩
  · intro h
    constructor
    · simp [store_copy_data, consumeCopy, hhead, h, herase2]
    · intro n₃
      simp [consumeCopy, lookupTok, hfresh, store_copy_data]
  · intro h
    have h' : ¬(n₂ - n₁ < CACHE_EXPIRY) := by omega
    simp [store_copy_data, consumeCopy, hhead, h', herase2]

/-- C4 witness at a concrete store/consume pair. -/
theorem copy_cache_lifecycle_witness :
    lookupTok st0.cache (store_copy_data st0 (Json.num 7) 0).1 = none ∧
    consumeCopy ((store_copy_data st0 (Json.num 7) 0).2).cache
        (store_copy_data st0 (Json.num 7) 0).1 10 = (some (Json.num 7), st0.cache) := by
  have h := copy_cache_lifecycle st0 (Json.num 7) 0 10
    (by intro e he; simp [st0] at he)
  exact ⟨h.1, (h.2.1 (by decide)).1⟩

/-! ## C2: delivery threshold (and C8: audit-mirror length) helpers -/

theorem escStr_replicate_a (n : Nat) :
    escStr false (List.replicate n 'a') = List.replicate n 'a' := by
  induction n with
  | zero => rfl
  | succ k ih =>
    rw [List.replicate_succ]
    show escJsonChar false 'a' ++ escStr false (List.replicate k 'a') = _
    rw [ih]
    rfl

/-- Length of the serialized envelope around a string of `n` ASCII `'a'`s. -/
theorem dumps_rep_len (n : Nat) :
    (dumpsVal false 0 (addBranding (Json.str (List.replicate n 'a')))).length =
      85 + n := by
  have ha : addBranding (Json.str (List.replicate n 'a')) = Json.obj
      [("result".data, Json.str (List.replicate n 'a')),
       ("developer".data, Json.str BRANDING_developer),
       ("powered_by".data, Json.str BRANDING_powered_by)] := rfl
  have e1 : escStr false "result".data = "result".data := by decide
  have e2 : escStr false "developer".data = "developer".data := by decide
  have e3 : escStr false "powered_by".data = "powered_by".data := by decide
  have e4 : escStr false BRANDING_developer = BRANDING_developer := by decide
  have e5 : escStr false BRANDING_powered_by = BRANDING_powered_by := by decide
  have l1 : ("result".data).length = 6 := rfl
  have l2 : ("developer".data).length = 9 := rfl
  have l3 : ("powered_by".data).length = 10 := rfl
  have l4 : BRANDING_developer.length = 15 := rfl
  have l5 : BRANDING_powered_by.length = 13 := rfl
  rw [ha]
  simp only [dumpsVal, dumpsPairs, indChars, e1, e2, e3, e4, e5,
    escStr_replicate_a]
  simp only [List.length_append, List.length_cons, List.length_replicate,
    List.length_nil, l1, l2, l3, l4, l5]
  omega

theorem output_text_len4000 : (output_text dataLen4000).length = 4000 := by
  rw [output_text, dataLen4000, List.length_append, dumps_rep_len]
  rfl

theorem output_text_len4001 : (output_text dataLen4001).length = 4001 := by
  rw [output_text, dataLen4001, List.length_append, dumps_rep_len]
  rfl

/-- No lookup whose branded envelope renders to at most 4000 characters ever
emits a document attachment, whatever the command, query or log outcome. -/
theorem handle_command_no_file (st : St) (uid : Nat)
    (uname cmd query : List Char) (oracle : HttpOutcome) (now : Nat)
    (logOk : Bool)
    (h : (output_text (addBranding (call_api oracle))).length ≤ 4000) :
    sentAsFile (handle_command st uid uname cmd query oracle now logOk).2 =
      false := by
  rw [handle_command]
  cases hcg : commandsGet cmd with
  | none => simp [sentAsFile]
  | some info =>
    have hn : ¬4000 < (output_text (addBranding (call_api oracle))).length := by
      omega
    simp only [renderDeliver, store_copy_data]
    rw [if_neg hn]
    cases logOk <;> simp [sentAsFile]

/-- C2 counterexample: a lookup whose rendered output is exactly 4000
characters long is delivered inline — as the inline reply carrying the
sanitized, escaped text, with no attachment anywhere in the pipeline's
effects — while one character more (4001) goes to the attachment path: the
claim says "at or above the threshold" goes to the attachment, but the code
only branches on `len > 4000` (main.py line 245). -/
theorem delivery_at_threshold_inline_cex :
    (output_text dataLen4000).length = 4000 ∧
    (renderDeliver "git".data "q".data [] dataLen4000 st0 0).2 =
      [Eff.replyHTML (inlineHTML (htmlEscape
          (clean_branding (dumpsVal false 0 dataLen4000) [])))
        st0.nextTok "git".data] ∧
    sentAsFile (handle_command st0 1 "u".data "git".data "q".data
      oracleLen4000 0 true).2 = false ∧
    (output_text dataLen4001).length = 4001 ∧
    (renderDeliver "git".data "q".data [] dataLen4001 st0 0).2 =
      [Eff.sendDocument ("git".data ++ '_' :: (List.take 20 "q".data ++
          ".txt".data)) (output_text dataLen4001) FILE_CAPTION] := by
  refine ⟨output_text_len4000, ?_, ?_, output_text_len4001, ?_⟩
  · have hn : ¬4000 < (output_text dataLen4000).length := by
      rw [output_text_len4000]
      omega
    simp only [renderDeliver, store_copy_data]
    rw [if_neg hn]
  · apply handle_command_no_file
    rw [show addBranding (call_api oracleLen4000) = dataLen4000 from rfl,
      output_text_len4000]
  · have hp : 4000 < (output_text dataLen4001).length := by
      rw [output_text_len4001]
      omega
    simp only [renderDeliver]
    rw [if_pos hp]

/-- C2 amended: delivery is inline exactly when the rendered output
(envelope plus fixed footer) is at most 4000 characters long; strictly above
4000 it is the document attachment named `<command>_<query truncated to
20>.txt` carrying the raw rendered output. -/
theorem delivery_threshold (cmd query : List Char) (extra : List (List Char))
    (data : Json) (st : St) (now : Nat) :
    ((output_text data).length ≤ 4000 →
      (renderDeliver cmd query extra data st now).2 =
        [.replyHTML (inlineHTML (htmlEscape
            (clean_branding (dumpsVal false 0 data) extra))) st.nextTok cmd] ∧
      sentAsFile (renderDeliver cmd query extra data st now).2 = false) ∧
    (4000 < (output_text data).length →
      (renderDeliver cmd query extra data st now).2 =
        [.sendDocument (cmd ++ '_' :: (query.take 20 ++ ".txt".data))
          (output_text data) FILE_CAPTION] ∧
      sentAsFile (renderDeliver cmd query extra data st now).2 = true) := by
  constructor
  · intro h
    have hn : ¬4000 < (output_text data).length := by omega
    refine ⟨?_, ?_⟩
    · simp only [renderDeliver, if_neg hn, store_copy_data]
    · simp [renderDeliver, if_neg hn, store_copy_data, sentAsFile]
  · intro h
    refine ⟨?_, ?_⟩
    · simp only [renderDeliver, if_pos h]
    · simp [renderDeliver, if_pos h, sentAsFile]

/-- C2 witness: a short output is delivered inline. -/
theorem delivery_threshold_witness :
    (renderDeliver "git".data "q".data [] (Json.num 0) st0 0).2 =
      [.replyHTML (inlineHTML (htmlEscape
          (clean_branding (dumpsVal false 0 (Json.num 0)) [])))
        st0.nextTok "git".data] ∧
    sentAsFile (renderDeliver "git".data "q".data [] (Json.num 0) st0 0).2 =
      false :=
  (delivery_threshold "git".data "q".data [] (Json.num 0) st0 0).1 (by decide)

/-! ## C8: audit-channel mirror -/

theorem log_text_big_len :
    (log_text 1 "@u".data "num".data "q".data dataBigLog).length = 4354 := by
  have l1 : ("👤 **User:** ".data).length = 12 := rfl
  have l2 : (" (".data).length = 2 := rfl
  have l3 : ("@u".data).length = 2 := rfl
  have l4 : (")\n🔍 **Command:** /".data).length = 18 := rfl
  have l5 : ("num".data).length = 3 := rfl
  have l6 : ("\n📝 **Query:** `".data).length = 15 := rfl
  have l7 : ("q".data).length = 1 := rfl
  have l8 : ("`\n\n```json\n".data).length = 11 := rfl
  have l9 : ("\n```".data).length = 4 := rfl
  have ln : (natChars 1).length = 1 := rfl
  rw [log_text, dataBigLog]
  simp only [List.length_append, dumps_rep_len, l1, l2, l3, l4, l5, l6, l7,
    l8, l9, ln]

/-- C8 counterexample: for a large envelope, the mirrored summary is
`log_text[:4000] + "..."`, which is 4003 characters — strictly over the
4000-unit bound the claim states. -/
theorem audit_mirror_over_4000_cex :
    (truncLog (log_text 1 "@u".data "num".data "q".data dataBigLog)).length =
      4003 ∧
    4000 <
      (truncLog (log_text 1 "@u".data "num".data "q".data dataBigLog)).length := by
  have h : truncLog (log_text 1 "@u".data "num".data "q".data dataBigLog) =
      (log_text 1 "@u".data "num".data "q".data dataBigLog).take 4000 ++
        "...".data := by
    rw [truncLog, if_pos]
    rw [log_text_big_len]
    omega
  have l : ("...".data).length = 3 := rfl
  rw [h, List.length_append, List.length_take, log_text_big_len]
  omega

/-- C8 amended: the mirrored audit summary is capped at 4003 characters
(4000 kept characters plus a three-character ellipsis) — not 4000 — and is
the summary itself when that fits in 4000; a failure of the channel send
leaves the resulting state and every non-log effect of the lookup pipeline
unchanged. -/
theorem audit_mirror_bounded_best_effort :
    (∀ s : List Char, (truncLog s).length ≤ 4003 ∧
      (s.length ≤ 4000 → truncLog s = s)) ∧
    (∀ st uid uname cmd query oracle now,
      (handle_command st uid uname cmd query oracle now true).1 =
        (handle_command st uid uname cmd query oracle now false).1 ∧
      nonLogEffs (handle_command st uid uname cmd query oracle now true).2 =
        nonLogEffs (handle_command st uid uname cmd query oracle now false).2) := by
  constructor
  · intro s
    constructor
    · rw [truncLog]
      split
      · rw [List.length_append, List.length_take]
        have l : ("...".data).length = 3 := rfl
        omega
      · omega
    · intro h
      rw [truncLog, if_neg (by omega)]
  · intro st uid uname cmd query oracle now
    cases h : commandsGet cmd with
    | none => simp [handle_command, h]
    | some info =>
      constructor
      · simp [handle_command, h]
      · simp [handle_command, h, nonLogEffs, List.filter_append]

/-! ## C7: ban gating -/

/-- C7 counterexample: in a private chat, a banned plain user attempting a
gated lookup command is denied by the scope check with the redirect message,
not with the fixed ban-denial message the claim promises for every gated
command. -/
theorem ban_private_redirect_cex :
    message_handler envBan42 st0 ChatType.privateChat 0 42 "u".data
        "/num 123".data HttpOutcome.timeout 0 true =
      (st0, [.reply REDIRECT_MSG]) ∧
    REDIRECT_MSG ≠ BAN_MSG :=
  ⟨rfl, by decide⟩

/-- C7 amended: in any non-private (group-side) context, a banned identifier
that is neither the owner nor a registered admin receives exactly the fixed
ban-denial message for any message text, the state is completely unchanged
(no Lookup Record, counters untouched), and the lookup pipeline is never
reached; owner and admin identifiers pass the gate without the ban check.
In a private context the scope check answers first with the redirect
message. -/
theorem ban_gate (env : Env) (st : St) (ct : ChatType) (chatId : Int)
    (uid : Nat) (uname text : List Char) (oracle : HttpOutcome) (now : Nat)
    (logOk : Bool) (hct : ct ≠ ChatType.privateChat)
    (hban : env.banned.contains uid = true) (hown : uid ≠ OWNER_ID)
    (hadm : env.admins.contains uid = false) :
    message_handler env st ct chatId uid uname text oracle now logOk =
      (st, [.reply BAN_MSG]) ∧
    (∀ uid', (uid' = OWNER_ID ∨ env.admins.contains uid' = true) →
      force_join_filter env uid' = (true, [])) := by
  have hgo : group_only env uid ct text = true := by
    cases ct
    · exact absurd rfl hct
    all_goals rfl
  have hadm' : uid ∉ env.admins := by simpa using hadm
  have hban' : uid ∈ env.banned := by simpa using hban
  have hfj : force_join_filter env uid = (false, [.reply BAN_MSG]) := by
    rw [force_join_filter, if_neg (by simp [hown, hadm']),
      if_pos (by simp [hban'])]
  constructor
  · rw [message_handler, hgo]
    simp only [Bool.not_true, Bool.not_false, Bool.false_eq_true, if_false,
      if_true, hfj]
  · intro uid' h'
    rw [force_join_filter, if_pos]
    rcases h' with h' | h'
    · simp [h']
    · simp only [Bool.or_eq_true, decide_eq_true_eq]
      exact Or.inr h'

/-- C7 witness: the banned user 42 in a group chat gets the ban denial and
the state is unchanged. -/
theorem ban_gate_witness :
    message_handler envBan42 st0 ChatType.group 5 42 "u".data
        "/num 123".data HttpOutcome.timeout 0 true = (st0, [.reply BAN_MSG]) :=
  (ban_gate envBan42 st0 ChatType.group 5 42 "u".data "/num 123".data
    HttpOutcome.timeout 0 true (by decide) (by decide) (by decide)
    (by decide)).1

/-! ## C10: missing-argument usage hint -/

theorem usage_ne_notfound (c : List Char) : usageMsg c ≠ NOT_FOUND_MSG := by
  intro h
  have h2 : (usageMsg c).head? = some 'U' := rfl
  rw [h] at h2
  exact absurd h2 (by decide)

/-- C10: a gated slash command with no argument after the command name gets
only the usage hint: the lookup pipeline never runs (no upstream call
appears among the effects), no Lookup Record is appended, and this holds for
commands outside the catalog too, whose hint carries the generic parameter
name instead of the "not found" message. -/
theorem no_arg_usage_hint (env : Env) (st : St) (ct : ChatType)
    (chatId : Int) (uid : Nat) (uname text : List Char)
    (oracle : HttpOutcome) (now : Nat) (logOk : Bool)
    (hgo : group_only env uid ct text = true)
    (hfj : (force_join_filter env uid).1 = true)
    (hslash : startsWithStr "/".data text = true)
    (hnoarg : (splitMax1 text).2 = none) :
    (message_handler env st ct chatId uid uname text oracle now logOk).2 =
      [.reply (usageMsg (parseCmd (splitMax1 text).1))] ∧
    (message_handler env st ct chatId uid uname text oracle now logOk).1.lookups
      = st.lookups ∧
    (∀ url,
      Eff.apiGet url ∉
        (message_handler env st ct chatId uid uname text oracle now logOk).2) ∧
    (commandsGet (parseCmd (splitMax1 text).1) = none →
      usageMsg (parseCmd (splitMax1 text).1) =
        "Usage: `/".data ++ (parseCmd (splitMax1 text).1 ++
          (" <".data ++ ("query".data ++ ">`".data))) ∧
      usageMsg (parseCmd (splitMax1 text).1) ≠ NOT_FOUND_MSG) := by
  have htext : ¬text = [] := by
    intro h
    subst h
    simp [startsWithStr] at hslash
  have key : message_handler env st ct chatId uid uname text oracle now logOk
      = ((if ct = ChatType.group || ct = ChatType.supergroup then
            { update_user st uid with groups :=
                if chatId ∈ (update_user st uid).groups then
                  (update_user st uid).groups
                else chatId :: (update_user st uid).groups }
          else update_user st uid),
         [.reply (usageMsg (parseCmd (splitMax1 text).1))]) := by
    rw [message_handler, hgo]
    simp only [Bool.not_true, Bool.false_eq_true, if_false, hfj, htext,
      hslash, Bool.not_false, Bool.or_false, decide_False, hnoarg]
  refine ⟨by rw [key], ?_, ?_, ?_⟩
  · rw [key]
    have hup : (update_user st uid).lookups = st.lookups := by
      rw [update_user]
      split <;> rfl
    split <;> simp [hup]
  · intro url
    rw [key]
    simp
  · intro hnone
    refine ⟨?_, usage_ne_notfound _⟩
    rw [usageMsg, hnone]
    simp [List.append_assoc]

/-- C10 witness: `/nosuchcmd` with no argument in a group chat yields the
generic usage hint and leaves the audit log untouched. -/
theorem no_arg_usage_hint_witness :
    (message_handler envOpen st0 ChatType.group 5 9 "u".data
        "/nosuchcmd".data HttpOutcome.timeout 0 true).2 =
      [.reply (usageMsg (parseCmd (splitMax1 "/nosuchcmd".data).1))] ∧
    (message_handler envOpen st0 ChatType.group 5 9 "u".data
        "/nosuchcmd".data HttpOutcome.timeout 0 true).1.lookups =
      st0.lookups := by
  have h := no_arg_usage_hint envOpen st0 ChatType.group 5 9 "u".data
    "/nosuchcmd".data HttpOutcome.timeout 0 true rfl rfl (by decide)
    (by decide)
  exact ⟨h.1, h.2.1⟩

/-! ## C9: the copy cache holds the unsanitized envelope -/

set_option maxRecDepth 40000

/-- C9 counterexample: the `num` denylist entry containing `₹` is removed
from the inline message, but it is *not* literally present in the
copy-control reply either — the reply is serialized with ASCII escaping
(`json.dumps` without `ensure_ascii=False`, main.py line 337), which
renders the rupee sign as the six-character ASCII escape backslash-u20b9 — refuting "denylisted substrings removed from the inline
message are still present in the copy-control reply" for this entry.  The
first two conjuncts show the lookup is delivered inline and the entry was
present and removed there. -/
theorem copy_reply_nonascii_cex :
    (output_text dataRuk).length ≤ 4000 ∧
    containsSubCI rukEntry (dumpsVal false 0 dataRuk) = true ∧
    containsSubCI rukEntry
      (htmlEscape (clean_branding (dumpsVal false 0 dataRuk) extraNum)) =
        false ∧
    containsSubCI rukEntry (copyReply dataRuk) = false :=
  ⟨by decide, by decide, by decide, by decide⟩

/-- C9 amended: for every inline-delivered lookup, the payload stored in the
copy cache is the unsanitized, unescaped envelope object itself (not the
sanitized inline text); an all-ASCII denylisted substring removed from the
inline message therefore reappears literally in the copy-control reply (as
`anshapi` does below), while an entry containing non-ASCII characters
reappears only in ASCII-escaped form. -/
theorem copy_cache_unsanitized (cmd query : List Char)
    (extra : List (List Char)) (data : Json) (st : St) (now : Nat)
    (h : (output_text data).length ≤ 4000) :
    ((renderDeliver cmd query extra data st now).1).cache =
      (st.nextTok, data, now) :: st.cache ∧
    (containsSubCI "anshapi".data (copyReply dataAnshapi) = true ∧
     containsSubCI "anshapi".data
       (htmlEscape (clean_branding (dumpsVal false 0 dataAnshapi) [])) =
         false ∧
     containsSubCI "anshapi".data (dumpsVal false 0 dataAnshapi) = true) := by
  constructor
  · have hn : ¬4000 < (output_text data).length := by omega
    simp only [renderDeliver, store_copy_data]
    rw [if_neg hn]
  · exact ⟨by decide, by decide, by decide⟩

/-- C9 witness: a concrete inline delivery stores its envelope in the
cache. -/
theorem copy_cache_unsanitized_witness :
    ((renderDeliver "git".data "q".data [] (Json.num 0) st0 0).1).cache =
      (st0.nextTok, Json.num 0, 0) :: st0.cache :=
  (copy_cache_unsanitized "git".data "q".data [] (Json.num 0) st0 0
    (by decide)).1

/-! ## C1: sanitizer lemmas -/

theorem removeCIgo_skip (a : Char) (p : List Char) :
    ∀ (t : List Char) (k : Nat),
      removeCIgo a p k t = removeCIgo a p 0 (t.drop k) := by
  intro t
  induction t with
  | nil => intro k; cases k <;> rfl
  | cons c t ih =>
    intro k
    cases k with
    | zero => rfl
    | succ s => rw [removeCIgo, List.drop_succ_cons, ih]

theorem removeCIgo_sublist (a : Char) (p : List Char) :
    ∀ (t : List Char) (k : Nat), (removeCIgo a p k t).Sublist t := by
  intro t
  induction t with
  | nil => intro k; cases k <;> simp [removeCIgo]
  | cons c t ih =>
    intro k
    cases k with
    | zero =>
      rw [removeCIgo]
      split
      · exact (ih p.length).cons c
      · exact (ih 0).cons₂ c
    | succ s =>
      rw [removeCIgo]
      exact (ih s).cons c

theorem contains_remove_len (a : Char) (p : List Char) :
    ∀ (t : List Char), containsSubCI (a :: p) t = true →
      (removeCIgo a p 0 t).length + (a :: p).length ≤ t.length := by
  intro t
  induction t with
  | nil => intro h; simp [containsSubCI, stripPrefCI] at h
  | cons c t ih =>
    intro h
    rw [containsSubCI, Bool.or_eq_true] at h
    by_cases hm : (stripPrefCI (a :: p) (c :: t)).isSome = true
    · obtain ⟨rest, hrest⟩ := Option.isSome_iff_exists.mp hm
      have hlen := stripPrefCI_length hrest
      rw [removeCIgo, if_pos hm, removeCIgo_skip]
      have hsub := (removeCIgo_sublist a p (t.drop p.length) 0).length_le
      simp only [List.length_drop] at hsub
      simp only [List.length_cons] at hlen ⊢
      omega
    · have ht : containsSubCI (a :: p) t = true := by
        rcases h with h | h
        · exact absurd h hm
        · exact h
      rw [removeCIgo, if_neg hm]
      have := ih ht
      simp only [List.length_cons] at this ⊢
      omega

theorem removeAllCI_sublist (p t : List Char) : (removeAllCI p t).Sublist t := by
  cases p with
  | nil => exact List.Sublist.refl t
  | cons a p' => exact removeCIgo_sublist a p' t 0

theorem foldl_remove_sublist (L : List (List Char)) :
    ∀ t, (L.foldl (fun s q => removeAllCI q s) t).Sublist t := by
  induction L with
  | nil => intro t; exact List.Sublist.refl t
  | cons q L ih =>
    intro t
    exact (ih (removeAllCI q t)).trans (removeAllCI_sublist q t)

theorem contains_foldl_len (L : List (List Char)) :
    ∀ (t d : List Char), d ∈ L → d ≠ [] → containsSubCI d t = true →
      (L.foldl (fun s q => removeAllCI q s) t).length < t.length := by
  induction L with
  | nil => intro t d hd; exact absurd hd (List.not_mem_nil d)
  | cons q L ih =>
    intro t d hd hne hc
    rw [List.foldl_cons]
    rcases List.mem_cons.mp hd with hd | hd
    · subst hd
      obtain ⟨a, p, rfl⟩ : ∃ a p, d = a :: p := by
        cases d with
        | nil => exact absurd rfl hne
        | cons a p => exact ⟨a, p, rfl⟩
      have h1 := contains_remove_len a p t hc
      have h2 := (foldl_remove_sublist L (removeAllCI (a :: p) t)).length_le
      simp only [removeAllCI] at h2 ⊢
      simp only [List.length_cons] at h1
      omega
    · by_cases hq : removeAllCI q t = t
      · rw [hq]
        exact ih t d hd hne hc
      · have h1 : (removeAllCI q t).length < t.length :=
          lt_of_le_of_ne (removeAllCI_sublist q t).length_le
            (fun heq => hq ((removeAllCI_sublist q t).eq_of_length heq))
        have h2 := (foldl_remove_sublist L (removeAllCI q t)).length_le
        omega

theorem collapseBlankGo_skip :
    ∀ (t : List Char) (k : Nat),
      collapseBlankGo k t = collapseBlankGo 0 (t.drop k) := by
  intro t
  induction t with
  | nil => intro k; cases k <;> rfl
  | cons c t ih =>
    intro k
    cases k with
    | zero => rfl
    | succ s => rw [collapseBlankGo, List.drop_succ_cons, ih]

theorem collapseBlankGo_len :
    ∀ (n : Nat) (t : List Char) (k : Nat), t.length ≤ n →
      (collapseBlankGo k t).length ≤ t.length - k := by
  intro n
  induction n with
  | zero =>
    intro t k h
    have : t = [] := List.length_eq_zero.mp (Nat.le_zero.mp h)
    subst this
    cases k <;> simp [collapseBlankGo]
  | succ n ih =>
    intro t k h
    cases t with
    | nil => cases k <;> simp [collapseBlankGo]
    | cons c t =>
      simp only [List.length_cons] at h
      cases k with
      | succ s =>
        rw [collapseBlankGo]
        have := ih t s (by omega)
        simp only [List.length_cons]
        omega
      | zero =>
        rw [collapseBlankGo]
        split
        · next hc =>
          cases hw : wsPrefixLastNl t with
          | some r =>
            have hr := wsPrefixLastNl_length t hw
            have := ih t (t.length - r.length) (by omega)
            simp only [List.length_cons]
            omega
          | none =>
            have := ih t 0 (by omega)
            simp only [List.length_cons]
            omega
        · next hc =>
          have := ih t 0 (by omega)
          simp only [List.length_cons]
          omega

theorem collapseBlank_len (t : List Char) :
    (collapseBlank t).length ≤ t.length := by
  have := collapseBlankGo_len t.length t 0 (le_refl _)
  simpa [collapseBlank] using this

theorem collapseSpaces_len (t : List Char) :
    (collapseSpaces t).length ≤ t.length := by
  induction t using collapseSpaces.induct with
  | case1 => simp [collapseSpaces]
  | case2 c => simp [collapseSpaces]
  | case3 c d t h ih =>
    rw [collapseSpaces, if_pos h]
    simp only [List.length_cons] at ih ⊢
    omega
  | case4 c d t h ih =>
    rw [collapseSpaces, if_neg h]
    simp only [List.length_cons] at ih ⊢
    omega

theorem pyStrip_parts (y : List Char) :
    ∃ a b, y = a ++ (pyStrip y ++ b) := by
  refine ⟨y.takeWhile isPySpace,
    ((y.dropWhile isPySpace).reverse.takeWhile isPySpace).reverse, ?_⟩
  conv_lhs => rw [← List.takeWhile_append_dropWhile (p := isPySpace) (l := y)]
  congr 1
  rw [pyStrip]
  conv_lhs => rw [← List.reverse_reverse (y.dropWhile isPySpace),
    ← List.takeWhile_append_dropWhile (p := isPySpace)
      (l := (y.dropWhile isPySpace).reverse)]
  rw [List.reverse_append]

theorem pyStrip_len (y : List Char) : (pyStrip y).length ≤ y.length := by
  obtain ⟨a, b, h⟩ := pyStrip_parts y
  conv_rhs => rw [h]
  simp only [List.length_append]
  omega

/-- C1 counterexample: the configured entry `Dm to buy access` reappears in
the sanitized output of `"Dm  to buy access"` (double space): no denylist
entry matches the input, and the space-collapsing pass then rebuilds the
entry verbatim. -/
theorem sanitize_recreates_entry_cex :
    "Dm to buy access".data ∈ GLOBAL_BLACKLIST ∧
    containsSubCI "Dm to buy access".data
      (clean_branding "Dm  to buy access".data []) = true :=
  ⟨by decide, by decide⟩

/-- C1 amended: for every configured denylist entry `d` (global plus the
command's extra list) and every text containing `d` case-insensitively, the
sanitizer removes all occurrences found in one left-to-right scan — the
output is strictly shorter than the input — but the output may still contain
`d`, because removals can splice fragments together and the whitespace
collapsing can rebuild an entry. -/
theorem sanitize_shrinks (extra : List (List Char)) (d t : List Char)
    (hd : d ∈ GLOBAL_BLACKLIST ++ extra) (hne : d ≠ [])
    (hc : containsSubCI d t = true) :
    (clean_branding t extra).length < t.length := by
  have ht : ¬t = [] := by
    intro h
    subst h
    cases d with
    | nil => exact hne rfl
    | cons a p => simp [containsSubCI, stripPrefCI] at hc
  rw [clean_branding, if_neg ht]
  show (pyStrip (collapseSpaces (collapseBlank
    ((GLOBAL_BLACKLIST ++ extra).foldl (fun s p => removeAllCI p s) t)))).length
      < t.length
  have h1 := contains_foldl_len (GLOBAL_BLACKLIST ++ extra) t d hd hne hc
  have h2 := collapseBlank_len
    ((GLOBAL_BLACKLIST ++ extra).foldl (fun s p => removeAllCI p s) t)
  have h3 := collapseSpaces_len (collapseBlank
    ((GLOBAL_BLACKLIST ++ extra).foldl (fun s p => removeAllCI p s) t))
  have h4 := pyStrip_len (collapseSpaces (collapseBlank
    ((GLOBAL_BLACKLIST ++ extra).foldl (fun s p => removeAllCI p s) t)))
  omega

/-- C1 witness: a text containing `credit` strictly shrinks. -/
theorem sanitize_shrinks_witness :
    (clean_branding "xcredity".data []).length < ("xcredity".data).length :=
  sanitize_shrinks [] "credit".data "xcredity".data (by decide) (by decide)
    (by decide)

/-! ## C5: sanitizer idempotence lemmas -/

theorem InfixOf_cons (p : List Char) (c : Char) {l : List Char} :
    InfixOf p l → InfixOf p (c :: l) := by
  rintro ⟨a, b, rfl⟩
  exact ⟨c :: a, b, rfl⟩

theorem InfixOf_cons_elim {p : List Char} {c : Char} {l : List Char} :
    InfixOf p (c :: l) → (∃ b, c :: l = p ++ b) ∨ InfixOf p l := by
  rintro ⟨a, b, h⟩
  cases a with
  | nil => exact Or.inl ⟨b, h⟩
  | cons x a =>
    rw [List.cons_append] at h
    injection h with h1 h2
    exact Or.inr ⟨a, b, h2⟩

theorem InfixOf_length {p l : List Char} : InfixOf p l → p.length ≤ l.length := by
  rintro ⟨a, b, rfl⟩
  simp only [List.length_append]
  omega

theorem InfixOf_of_parts {p s y : List Char} (hp : ∃ a b, y = a ++ (s ++ b)) :
    InfixOf p s → InfixOf p y := by
  obtain ⟨a, b, rfl⟩ := hp
  rintro ⟨x, z, rfl⟩
  exact ⟨a ++ x, z ++ b, by simp⟩

theorem Blanky_cons {l : List Char} (c : Char) : Blanky l → Blanky (c :: l) := by
  rintro ⟨m, hne, hws, hin⟩
  exact ⟨m, hne, hws, InfixOf_cons _ c hin⟩

theorem Blanky_of_parts {s y : List Char} (hp : ∃ a b, y = a ++ (s ++ b)) :
    Blanky s → Blanky y := by
  rintro ⟨m, hne, hws, hin⟩
  exact ⟨m, hne, hws, InfixOf_of_parts hp hin⟩

theorem HasDS_of_parts {s y : List Char} (hp : ∃ a b, y = a ++ (s ++ b)) :
    HasDS s → HasDS y := InfixOf_of_parts hp

theorem containsSubCI_nil_pat (u : List Char) : containsSubCI [] u = true := by
  cases u <;> simp [containsSubCI, stripPrefCI]

theorem not_contains_remove_id (a : Char) (p : List Char) :
    ∀ u, containsSubCI (a :: p) u = false → removeCIgo a p 0 u = u := by
  intro u
  induction u with
  | nil => intro _; rfl
  | cons c u ih =>
    intro h
    rw [containsSubCI, Bool.or_eq_false_iff] at h
    rw [removeCIgo, if_neg (by rw [h.1]; exact Bool.false_ne_true), ih h.2]

theorem removeAllCI_id {d u : List Char} (h : containsSubCI d u = false) :
    removeAllCI d u = u := by
  cases d with
  | nil => rfl
  | cons a p => exact not_contains_remove_id a p u h

theorem foldl_remove_id (L : List (List Char)) :
    ∀ u, (∀ d ∈ L, containsSubCI d u = false) →
      L.foldl (fun s q => removeAllCI q s) u = u := by
  induction L with
  | nil => intro u _; rfl
  | cons q L ih =>
    intro u h
    rw [List.foldl_cons, removeAllCI_id (h q (List.mem_cons_self q L))]
    exact ih u (fun d hd => h d (List.mem_cons_of_mem q hd))

theorem collapseSpaces_head_ne_space {d : Char} (t : List Char)
    (hd : ¬d = ' ') : ∃ r, collapseSpaces (d :: t) = d :: r := by
  cases t with
  | nil => exact ⟨[], rfl⟩
  | cons e t =>
    refine ⟨collapseSpaces (e :: t), ?_⟩
    rw [collapseSpaces, if_neg]
    simp [hd]

theorem S_noDS : ∀ x, ¬HasDS (collapseSpaces x) := by
  intro x
  induction x using collapseSpaces.induct with
  | case1 =>
    intro h
    have := InfixOf_length h
    simp [collapseSpaces] at this
  | case2 c =>
    intro h
    have := InfixOf_length h
    simp [collapseSpaces] at this
  | case3 c d t h ih =>
    rw [collapseSpaces, if_pos h]
    exact ih
  | case4 c d t h ih =>
    rw [collapseSpaces, if_neg h]
    intro hds
    rcases InfixOf_cons_elim hds with ⟨b, hb⟩ | hds'
    · rw [List.cons_append, List.cons_append, List.nil_append] at hb
      injection hb with h1 h2
      have hd : ¬d = ' ' := by
        intro hdeq
        rw [h1, hdeq] at h
        simp at h
      obtain ⟨r, hr⟩ := collapseSpaces_head_ne_space t hd
      rw [hr] at h2
      injection h2 with h3 h4
      exact hd h3
    · exact ih hds'

theorem S_id_of_noDS : ∀ y, ¬HasDS y → collapseSpaces y = y := by
  intro y
  induction y using collapseSpaces.induct with
  | case1 => intro _; rfl
  | case2 c => intro _; rfl
  | case3 c d t h ih =>
    intro hds
    exfalso
    apply hds
    have hc : c = ' ' ∧ d = ' ' := by
      constructor <;> [skip; skip] <;> simp_all
    exact ⟨[], t, by rw [hc.1, hc.2]; rfl⟩
  | case4 c d t h ih =>
    intro hds
    rw [collapseSpaces, if_neg h, ih (fun hd => hds (InfixOf_cons _ c hd))]

theorem S_pfx_lift :
    ∀ u (m v : List Char), (∀ c ∈ m, isPySpace c = true) →
      collapseSpaces u = m ++ '\n' :: v →
      ∃ m' v', (∀ c ∈ m', isPySpace c = true) ∧ m.length ≤ m'.length ∧
        u = m' ++ '\n' :: v' := by
  intro u
  induction u using collapseSpaces.induct with
  | case1 =>
    intro m v _ h
    rw [collapseSpaces] at h
    exact absurd (congrArg List.length h)
      (by intro hq
          simp only [List.length_nil, List.length_append, List.length_cons]
            at hq
          omega)
  | case2 c =>
    intro m v _ h
    rw [collapseSpaces] at h
    cases m with
    | nil =>
      rw [List.nil_append] at h
      injection h with h1 h2
      exact ⟨[], v, by simp, by simp, by rw [List.nil_append, h1, ← h2]⟩
    | cons x m =>
      rw [List.cons_append] at h
      injection h with h1 h2
      exact absurd (congrArg List.length h2)
        (by intro hq
            simp only [List.length_nil, List.length_append, List.length_cons]
              at hq
            omega)
  | case3 c d t h ih =>
    intro m v hws hsm
    rw [collapseSpaces, if_pos h] at hsm
    obtain ⟨m', v', hws', hlen', heq⟩ := ih m v hws hsm
    have hc : c = ' ' := by
      rcases Bool.and_eq_true_iff.mp h with ⟨h1, _⟩
      simpa using h1
    refine ⟨c :: m', v', ?_, by simp only [List.length_cons]; omega, ?_⟩
    · intro x hx
      rcases List.mem_cons.mp hx with rfl | hx
      · rw [hc]; rfl
      · exact hws' x hx
    · rw [List.cons_append, ← heq]
  | case4 c d t h ih =>
    intro m v hws hsm
    rw [collapseSpaces, if_neg h] at hsm
    cases m with
    | nil =>
      rw [List.nil_append] at hsm
      injection hsm with h1 h2
      exact ⟨[], d :: t, by simp, by simp, by rw [List.nil_append, h1]⟩
    | cons x m =>
      rw [List.cons_append] at hsm
      injection hsm with h1 h2
      obtain ⟨m', v', hws', hlen', heq⟩ := ih m v
        (fun y hy => hws y (List.mem_cons_of_mem x hy)) h2
      refine ⟨x :: m', v', ?_, by simp only [List.length_cons]; omega, ?_⟩
      · intro y hy
        rcases List.mem_cons.mp hy with rfl | hy
        · exact hws y (List.mem_cons_self y m)
        · exact hws' y hy
      · rw [h1, List.cons_append, ← heq]

theorem S_Blanky : ∀ y, Blanky (collapseSpaces y) → Blanky y := by
  intro y
  induction y using collapseSpaces.induct with
  | case1 =>
    rintro ⟨m, hne, hws, hin⟩
    have := InfixOf_length hin
    rw [collapseSpaces] at this
    simp at this
  | case2 c =>
    rintro ⟨m, hne, hws, hin⟩
    have := InfixOf_length hin
    rw [collapseSpaces] at this
    simp only [List.length_cons, List.length_append] at this
    have hm : 1 ≤ m.length := by
      cases m with
      | nil => exact absurd rfl hne
      | cons x m => simp
    omega
  | case3 c d t h ih =>
    intro hb
    rw [collapseSpaces, if_pos h] at hb
    exact Blanky_cons c (ih hb)
  | case4 c d t h ih =>
    intro hb
    rw [collapseSpaces, if_neg h] at hb
    obtain ⟨m, hne, hws, hin⟩ := hb
    rcases InfixOf_cons_elim hin with ⟨b, hb'⟩ | hin'
    · rw [List.cons_append] at hb'
      injection hb' with h1 h2
      rw [List.append_assoc] at h2
      obtain ⟨m', v', hws', hlen', heq⟩ := S_pfx_lift (d :: t) m b hws h2
      have hne' : m' ≠ [] := by
        intro hm
        rw [hm] at hlen'
        simp only [List.length_nil, Nat.le_zero, List.length_eq_zero]
          at hlen'
        exact hne hlen'
      refine ⟨m', hne', hws', ⟨[], v', ?_⟩⟩
      rw [heq, h1]
      simp
    · exact Blanky_cons c (ih ⟨m, hne, hws, hin'⟩)

theorem wpl_cons_none {c : Char} {r' : List Char}
    (h : wsPrefixLastNl (c :: r') = none) :
    ¬isPySpace c = true ∨
      (isPySpace c = true ∧ ¬c = '\n' ∧ wsPrefixLastNl r' = none) := by
  rw [wsPrefixLastNl] at h
  split at h
  · next hc =>
    split at h
    · next r hw => cases h
    · next hw =>
      split at h
      · cases h
      · next hn => exact Or.inr ⟨hc, hn, hw⟩
  · next hc => exact Or.inl hc

theorem wpl_some_none : ∀ (l r : List Char),
    wsPrefixLastNl l = some r → wsPrefixLastNl r = none := by
  intro l
  induction l with
  | nil => intro r h; cases h
  | cons c rest ih =>
    intro r h
    rw [wsPrefixLastNl] at h
    split at h
    · split at h
      · next r' hw => cases h; exact ih _ hw
      · next hw =>
        split at h
        · cases h; exact hw
        · cases h
    · cases h

theorem wpl_some_decomp : ∀ (l r : List Char), wsPrefixLastNl l = some r →
    ∃ pre, (∀ c ∈ pre, isPySpace c = true) ∧ l = pre ++ '\n' :: r := by
  intro l
  induction l with
  | nil => intro r h; cases h
  | cons c rest ih =>
    intro r h
    rw [wsPrefixLastNl] at h
    split at h
    · next hc =>
      split at h
      · next r' hw =>
        cases h
        obtain ⟨pre, hpre, heq⟩ := ih _ hw
        refine ⟨c :: pre, ?_, by rw [List.cons_append, ← heq]⟩
        intro x hx
        rcases List.mem_cons.mp hx with rfl | hx
        · exact hc
        · exact hpre x hx
      · split at h
        · next hn =>
          cases h
          exact ⟨[], by simp, by rw [List.nil_append, hn]⟩
        · cases h
    · cases h

theorem no_ws_nl_prefix : ∀ (r : List Char), wsPrefixLastNl r = none →
    ∀ m v, (∀ c ∈ m, isPySpace c = true) →
      collapseBlankGo 0 r ≠ m ++ '\n' :: v := by
  intro r
  induction r with
  | nil =>
    intro _ m v _ h
    simp only [collapseBlankGo] at h
    exact absurd (congrArg List.length h)
      (by intro hq
          simp only [List.length_nil, List.length_append, List.length_cons]
            at hq
          omega)
  | cons c r' ih =>
    intro hw m v hws heq
    have hn : ¬c = '\n' := by
      rcases wpl_cons_none hw with hc | ⟨_, hn, _⟩
      · intro he
        rw [he] at hc
        exact hc rfl
      · exact hn
    rw [collapseBlankGo, if_neg hn] at heq
    rcases wpl_cons_none hw with hc | ⟨_, _, hw'⟩
    · cases m with
      | nil =>
        rw [List.nil_append] at heq
        injection heq with h1 _
        exact hn h1
      | cons x m' =>
        rw [List.cons_append] at heq
        injection heq with h1 h2
        exact hc (by rw [h1]; exact hws x (List.mem_cons_self x m'))
    · cases m with
      | nil =>
        rw [List.nil_append] at heq
        injection heq with h1 _
        exact hn h1
      | cons x m' =>
        rw [List.cons_append] at heq
        injection heq with h1 h2
        exact ih hw' m' v (fun y hy => hws y (List.mem_cons_of_mem x hy)) h2

theorem cb_eq_other {c : Char} (t : List Char) (h : ¬c = '\n') :
    collapseBlank (c :: t) = c :: collapseBlank t := by
  rw [collapseBlank, collapseBlank, collapseBlankGo, if_neg h]

theorem cb_eq_none (t : List Char) (h : wsPrefixLastNl t = none) :
    collapseBlank ('\n' :: t) = '\n' :: collapseBlank t := by
  rw [collapseBlank, collapseBlank]
  simp [collapseBlankGo, h]

theorem cb_eq_some (t r : List Char) (h : wsPrefixLastNl t = some r) :
    collapseBlank ('\n' :: t) = '\n' :: '\n' :: collapseBlank r := by
  obtain ⟨pre, hws, hdecomp⟩ := wpl_some_decomp t r h
  rw [collapseBlank, collapseBlank]
  simp only [collapseBlankGo, h, if_pos]
  rw [collapseBlankGo_skip]
  have hlen : t.length - r.length = (pre ++ ['\n']).length := by
    rw [hdecomp]
    simp only [List.length_append, List.length_cons, List.length_nil]
    omega
  rw [hlen, hdecomp,
    show pre ++ '\n' :: r = (pre ++ ['\n']) ++ r from by simp,
    List.drop_left]

theorem not_Blanky_nil : ¬Blanky ([] : List Char) := by
  rintro ⟨m, hne, _, hin⟩
  have := InfixOf_length hin
  simp only [List.length_nil, List.length_cons, List.length_append]
    at this
  have hm : 1 ≤ m.length := by
    cases m with
    | nil => exact absurd rfl hne
    | cons x m => simp
  omega

theorem B_noBlanky_n : ∀ (n : Nat) (t : List Char), t.length ≤ n →
    ¬Blanky (collapseBlank t) := by
  intro n
  induction n with
  | zero =>
    intro t h
    have ht : t = [] := List.length_eq_zero.mp (Nat.le_zero.mp h)
    subst ht
    exact not_Blanky_nil
  | succ n ih =>
    intro t hlen
    cases t with
    | nil => exact not_Blanky_nil
    | cons c t' =>
      simp only [List.length_cons] at hlen
      by_cases hc : c = '\n'
      · subst hc
        cases hw : wsPrefixLastNl t' with
        | none =>
          rw [cb_eq_none t' hw]
          rintro ⟨m, hne, hws, hin⟩
          rcases InfixOf_cons_elim hin with ⟨b, hb⟩ | hin'
          · rw [List.cons_append] at hb
            injection hb with h1 h2
            exact no_ws_nl_prefix t' hw m b hws
              (by rw [show collapseBlankGo 0 t' = collapseBlank t' from rfl,
                h2, List.append_assoc, List.singleton_append])
          · exact ih t' (by omega) ⟨m, hne, hws, hin'⟩
        | some r =>
          rw [cb_eq_some t' r hw]
          have hwr : wsPrefixLastNl r = none := wpl_some_none t' r hw
          have hrlen : r.length < t'.length := wsPrefixLastNl_length t' hw
          rintro ⟨m, hne, hws, hin⟩
          rcases InfixOf_cons_elim hin with ⟨b, hb⟩ | hin'
          · rw [List.cons_append] at hb
            injection hb with h1 h2
            cases m with
            | nil => exact hne rfl
            | cons x m' =>
              rw [List.cons_append, List.cons_append] at h2
              injection h2 with h3 h4
              exact no_ws_nl_prefix r hwr m' b
                (fun y hy => hws y (List.mem_cons_of_mem x hy))
                (by rw [show collapseBlankGo 0 r = collapseBlank r from rfl,
                  h4, List.append_assoc, List.singleton_append])
          · rcases InfixOf_cons_elim hin' with ⟨b, hb⟩ | hin''
            · rw [List.cons_append] at hb
              injection hb with h1 h2
              exact no_ws_nl_prefix r hwr m b hws
                (by rw [show collapseBlankGo 0 r = collapseBlank r from rfl,
                  h2, List.append_assoc, List.singleton_append])
            · exact ih r (by omega) ⟨m, hne, hws, hin''⟩
      · rw [cb_eq_other t' hc]
        rintro ⟨m, hne, hws, hin⟩
        rcases InfixOf_cons_elim hin with ⟨b, hb⟩ | hin'
        · rw [List.cons_append] at hb
          injection hb with h1 _
          exact hc h1
        · exact ih t' (by omega) ⟨m, hne, hws, hin'⟩

theorem B_noBlanky (t : List Char) : ¬Blanky (collapseBlank t) :=
  B_noBlanky_n t.length t (le_refl _)

theorem B_id_n : ∀ (n : Nat) (t : List Char), t.length ≤ n → ¬Blanky t →
    collapseBlank t = t := by
  intro n
  induction n with
  | zero =>
    intro t h _
    have ht : t = [] := List.length_eq_zero.mp (Nat.le_zero.mp h)
    subst ht
    rfl
  | succ n ih =>
    intro t hlen hb
    cases t with
    | nil => rfl
    | cons c t' =>
      simp only [List.length_cons] at hlen
      by_cases hc : c = '\n'
      · subst hc
        cases hw : wsPrefixLastNl t' with
        | none =>
          rw [cb_eq_none t' hw,
            ih t' (by omega) (fun h' => hb (Blanky_cons '\n' h'))]
        | some r =>
          obtain ⟨pre, hws, hdecomp⟩ := wpl_some_decomp t' r hw
          cases pre with
          | cons x p' =>
            exfalso
            apply hb
            refine ⟨x :: p', by simp, hws, ⟨[], r, ?_⟩⟩
            rw [hdecomp]
            simp
          | nil =>
            rw [List.nil_append] at hdecomp
            have hrlen : r.length < t'.length := wsPrefixLastNl_length t' hw
            rw [cb_eq_some t' r hw,
              ih r (by omega) (fun h' =>
                hb (Blanky_cons '\n' (by rw [hdecomp]; exact Blanky_cons '\n' h'))),
              hdecomp]
      · rw [cb_eq_other t' hc,
          ih t' (by omega) (fun h' => hb (Blanky_cons c h'))]

theorem B_id_of_noBlanky (t : List Char) (h : ¬Blanky t) :
    collapseBlank t = t :=
  B_id_n t.length t (le_refl _) h

theorem dropWhile_idem (p : Char → Bool) :
    ∀ l : List Char, (l.dropWhile p).dropWhile p = l.dropWhile p := by
  intro l
  induction l with
  | nil => rfl
  | cons c l ih =>
    rw [List.dropWhile_cons]
    split
    · exact ih
    · next hpc => rw [List.dropWhile_cons, if_neg hpc]

theorem dropWhile_head_false (p : Char → Bool) :
    ∀ (l : List Char) (c : Char) (r : List Char),
      l.dropWhile p = c :: r → p c = false := by
  intro l
  induction l with
  | nil => intro c r h; cases h
  | cons x l ih =>
    intro c r h
    rw [List.dropWhile_cons] at h
    split at h
    · exact ih c r h
    · next hpx =>
      injection h with h1 _
      rw [← h1]
      exact Bool.not_eq_true _ |>.mp hpx

theorem pyStrip_idem (y : List Char) : pyStrip (pyStrip y) = pyStrip y := by
  have hb : y.dropWhile isPySpace = pyStrip y ++
      ((y.dropWhile isPySpace).reverse.takeWhile isPySpace).reverse := by
    rw [pyStrip]
    conv_lhs => rw [← List.reverse_reverse (y.dropWhile isPySpace),
      ← List.takeWhile_append_dropWhile (p := isPySpace)
        (l := (y.dropWhile isPySpace).reverse)]
    rw [List.reverse_append]
  have h1 : (pyStrip y).dropWhile isPySpace = pyStrip y := by
    cases hwc : pyStrip y with
    | nil => rfl
    | cons c r =>
      have hch : isPySpace c = false := by
        apply dropWhile_head_false isPySpace y c
          (r ++ ((y.dropWhile isPySpace).reverse.takeWhile isPySpace).reverse)
        conv_lhs => rw [hb]
        rw [hwc, List.cons_append]
      rw [List.dropWhile_cons, if_neg (by rw [hch]; exact Bool.false_ne_true)]
  have h2 : (pyStrip y).reverse.dropWhile isPySpace = (pyStrip y).reverse := by
    rw [pyStrip, List.reverse_reverse]
    exact dropWhile_idem isPySpace _
  rw [pyStrip, h1, h2, List.reverse_reverse]

/-- C5 counterexample: sanitizing `"Dm  to buy access"` yields the denylist
entry `"Dm to buy access"` itself, and a second sanitization removes it, so
the two passes disagree. -/
theorem sanitize_not_idempotent_cex :
    clean_branding (clean_branding "Dm  to buy access".data []) [] ≠
      clean_branding "Dm  to buy access".data [] := by decide

/-- C5 amended: the sanitizer is idempotent on every input whose sanitized
output is free of denylist entries; in general a second application can
differ, because removal splicing or whitespace collapsing can rebuild an
entry inside the first output, which the second pass then removes. -/
theorem sanitize_idempotent_on_entry_free (t : List Char)
    (extra : List (List Char))
    (h : ∀ d ∈ GLOBAL_BLACKLIST ++ extra,
      containsSubCI d (clean_branding t extra) = false) :
    clean_branding (clean_branding t extra) extra = clean_branding t extra := by
  by_cases hu : clean_branding t extra = []
  · rw [hu]
    rfl
  · have ht : ¬t = [] := by
      intro h0
      apply hu
      rw [h0]
      rfl
    have hu_eq : clean_branding t extra =
        pyStrip (collapseSpaces (collapseBlank
          ((GLOBAL_BLACKLIST ++ extra).foldl (fun s p => removeAllCI p s) t))) := by
      rw [clean_branding, if_neg ht]
    have hBu : ¬Blanky (clean_branding t extra) := by
      rw [hu_eq]
      intro hb
      exact B_noBlanky _ (S_Blanky _ (Blanky_of_parts (pyStrip_parts _) hb))
    have hSu : ¬HasDS (clean_branding t extra) := by
      rw [hu_eq]
      intro hb
      exact S_noDS _ (HasDS_of_parts (pyStrip_parts _) hb)
    have hTu : pyStrip (clean_branding t extra) = clean_branding t extra := by
      conv_lhs => rw [hu_eq]
      rw [pyStrip_idem, ← hu_eq]
    rw [clean_branding, if_neg hu]
    show pyStrip (collapseSpaces (collapseBlank
      ((GLOBAL_BLACKLIST ++ extra).foldl (fun s p => removeAllCI p s)
        (clean_branding t extra)))) = clean_branding t extra
    rw [foldl_remove_id _ _ h, B_id_of_noBlanky _ hBu, S_id_of_noDS _ hSu,
      hTu]

/-- C5 witness: a denylist-free text is a fixpoint after one pass. -/
theorem sanitize_idempotent_witness :
    clean_branding (clean_branding "hello  world".data []) [] =
      clean_branding "hello  world".data [] :=
  sanitize_idempotent_on_entry_free "hello  world".data [] (by decide)

end OsintBot
